import Mathlib

/-!
Verification of the fastapi-rag ingestion-and-retrieval core.

The repository's own code (`app/main.py`, `app/services/document_processor.py`,
`app/services/vector_store.py`) orchestrates two external libraries:
langchain's `RecursiveCharacterTextSplitter` and chromadb's collection
operations.  Those library internals are not part of the repository, so they
are modelled from the specification (each such definition carries a
`Modelled from the spec:` note); everything else is translated directly from
the Python source.  Strings are modelled as lists of characters, vector
components and scores as rationals, timestamps as values of an abstract clock.
-/

namespace FastapiRag

/-- Character strings are modelled as lists of characters. -/
abbrev Text := List Char

/-- Whitespace characters, as stripped by Python `str.strip()` on each chunk. -/
def isWSChar (c : Char) : Bool :=
  c = ' ' || c = '\t' || c = '\n' || c = '\r'

/-- Strip leading and trailing whitespace from a chunk (Python `str.strip()`). -/
def stripChunk (s : Text) : Text :=
  ((s.dropWhile isWSChar).reverse.dropWhile isWSChar).reverse

/-- Modelled from the spec: one level of langchain's recursive splitting —
split `t` at every occurrence of the separator `sep`, keeping the separator
attached to the preceding piece so that the pieces concatenate back to `t`.
The fuel argument is an upper bound on the number of steps (the text length
suffices); it only serves to make the recursion structural. -/
def splitGo (sep : Text) : ℕ → Text → Text → List Text
  | _, acc, [] => [acc.reverse]
  | 0, acc, t => [acc.reverse ++ t]
  | fuel + 1, acc, c :: cs =>
    if sep.isPrefixOf (c :: cs) then
      (acc.reverse ++ sep) :: splitGo sep fuel [] ((c :: cs).drop sep.length)
    else
      splitGo sep fuel (c :: acc) cs

/-- Modelled from the spec: split on a separator and drop empty pieces
(langchain keeps only the non-empty splits). -/
def splitOnSep (sep : Text) (t : Text) : List Text :=
  if sep = [] then [t]
  else (splitGo sep t.length [] t).filter (fun p => !p.isEmpty)

/-- Modelled from the spec: recursively split on the priority list of
separators; a piece still larger than `size` is re-split with the remaining
separators, and the empty-string separator of the source (last resort) splits
into single characters. -/
def recSplit (size : ℕ) : List Text → Text → List Text
  | [], t => t.map (fun c => [c])
  | sep :: rest, t =>
    (splitOnSep sep t).flatMap
      (fun p => if p.length ≤ size then [p] else recSplit size rest p)

/-- The separator priority list of the source:
`separators=["\n\n", "\n", " ", ""]` (the final empty string is the
character-split base case of `recSplit`). -/
def sepList : List Text := [['\n', '\n'], ['\n'], [' ']]

/-- The trailing `k` characters of `l` (all of `l` when it is shorter). -/
def takeLast (k : ℕ) (l : Text) : Text := l.drop (l.length - k)

/-- Modelled from the spec: greedy merge of the split pieces into chunks —
accumulate pieces until the running length would exceed `size`, then emit the
chunk and start the next one with the trailing `overlap` characters of the
text consumed so far.  `done` is the text consumed through the last emitted
chunk, `ov` the duplicated overlap prefix of the current chunk, `cur` its
fresh (non-duplicated) part. -/
def mergeGo (size overlap : ℕ) : List Text → Text → Text → Text → List Text
  | [], _done, ov, cur => if cur.isEmpty then [] else [ov ++ cur]
  | p :: ps, done, ov, cur =>
    if ¬ cur.isEmpty ∧ size < ov.length + cur.length + p.length then
      (ov ++ cur) :: mergeGo size overlap ps (done ++ cur)
        (takeLast overlap (done ++ cur)) p
    else
      mergeGo size overlap ps done ov (cur ++ p)

/-- The chunk sequence as accumulated by the merge, before the per-chunk
whitespace stripping that the splitter applies on emission. -/
def chunkRaw (size overlap : ℕ) (t : Text) : List Text :=
  mergeGo size overlap (recSplit size sepList t) [] [] []

/-- Modelled from the spec: `DocumentProcessor.chunk_text` =
`RecursiveCharacterTextSplitter.split_text` — recursive separator split,
greedy merge with overlap, each emitted chunk stripped of boundary whitespace
and whitespace-only chunks dropped (hence empty or whitespace-only input
yields zero chunks). -/
def chunk_text (size overlap : ℕ) (t : Text) : List Text :=
  ((chunkRaw size overlap t).map stripChunk).filter (fun c => !c.isEmpty)

/-- Reconstruction operator of the round-trip invariant: concatenate the
chunks, stripping between adjacent chunks the documented `overlap` characters
(clamped to the length of the text already reconstructed, which is exactly
the amount the chunker duplicated). -/
def reconstructGo (overlap : ℕ) : Text → List Text → Text
  | acc, [] => acc
  | acc, c :: cs => reconstructGo overlap (acc ++ c.drop (min overlap acc.length)) cs

/-- Concatenate a chunk sequence while stripping the duplicated overlaps. -/
def reconstruct (overlap : ℕ) (chunks : List Text) : Text :=
  reconstructGo overlap [] chunks

/-- Error taxonomy of the specification (§7), used as the failure type of the
shallow embedding. -/
inductive RagError where
  | validationError
  | configurationError
  | emptyDocumentError
  | dimensionMismatchError
deriving DecidableEq, Repr

/-- Per-chunk provenance metadata as built in `upload_document`. -/
structure MetadataR where
  source : String
  chunk_id : ℕ
  uploaded_at : String
deriving DecidableEq, Repr

/-- An index record: id, embedding, stored document text and metadata. -/
structure RecordR where
  id : ℕ
  embedding : List ℚ
  document : Text
  metadata : MetadataR
deriving DecidableEq, Repr

/-- Modelled from the spec: a chromadb collection — the named set of all
records plus a fresh-id counter standing in for the `uuid.uuid4()` stream
(§4.2: ids are collision-free across the collection's history).  `metric`
records the similarity-metric configuration passed at creation
(`hnsw:space` set to cosine). -/
structure Collection where
  collection_name : String
  metric : String
  records : List RecordR
  nextId : ℕ
deriving DecidableEq, Repr

/-- `VectorStore.__init__`: get-or-create the named collection with the
cosine metric. -/
def mkVectorStore (collection_name : String) : Collection :=
  { collection_name := collection_name, metric := "cosine", records := [],
    nextId := 0 }

/-- Pair the three parallel input lists into records with consecutive ids
starting at `i`. -/
def buildRecords : ℕ → List Text → List (List ℚ) → List MetadataR → List RecordR
  | i, t :: ts, e :: es, m :: ms => ⟨i, e, t, m⟩ :: buildRecords (i + 1) ts es ms
  | _, _, _, _ => []

/-- `VectorStore.add_documents`: generate one fresh id per text (modelled
from the spec: `uuid.uuid4()` becomes the fresh-id counter) and call
`collection.add`, which — modelled from the spec, §4.2 — validates that the
batch is non-empty with matching lengths, failing with `ValidationError` and
leaving the collection unchanged, and otherwise appends all records
atomically.  Returns the updated collection and the assigned ids in input
order. -/
def add_documents (c : Collection) (texts : List Text)
    (embeddings : List (List ℚ)) (metadata : List MetadataR) :
    Collection × Except RagError (List ℕ) :=
  let ids := List.range' c.nextId texts.length
  if texts.length = embeddings.length ∧ texts.length = metadata.length ∧
      0 < texts.length then
    ({ c with
        records := c.records ++ buildRecords c.nextId texts embeddings metadata,
        nextId := c.nextId + texts.length },
      .ok ids)
  else
    (c, .error .validationError)

/-- A search hit: stored document text, metadata and distance to the query
(chroma returns the parallel lists `documents`, `metadatas`, `distances`;
the pipeline zips them back together, so a triple is the faithful shape). -/
structure SearchResult where
  document : Text
  metadata : MetadataR
  distance : ℚ
deriving DecidableEq, Repr

/-- Modelled from the spec: `VectorStore.search` = `collection.query` — a
dimension-checked exact nearest-neighbour search returning the `top_k`
closest records in ascending order of distance (§4.2).  The metric is a
function parameter: cosine distance itself is irrational-valued, and every
property claimed of `search` holds for an arbitrary metric, cosine
included. -/
def search (dist : List ℚ → List ℚ → ℚ) (c : Collection)
    (query_embedding : List ℚ) (top_k : ℕ) :
    Except RagError (List SearchResult) :=
  if c.records.all (fun r => r.embedding.length == query_embedding.length) then
    .ok (((c.records.map (fun r =>
        SearchResult.mk r.document r.metadata
          (dist query_embedding r.embedding))).insertionSort
            (fun a b => a.distance ≤ b.distance)).take top_k)
  else
    .error .dimensionMismatchError

/-- `VectorStore.delete_collection` followed by the fresh `VectorStore` the
`/documents/clear` endpoint constructs from the same settings (same name,
cosine metric again).  The fresh-id counter persists because it models the
globally unique `uuid.uuid4()` stream, whose values are never reused. -/
def clear_documents (c : Collection) : Collection :=
  { collection_name := c.collection_name, metric := "cosine", records := [],
    nextId := c.nextId }

/-- The dictionary returned by `VectorStore.get_collection_stats`. -/
structure CollectionStats where
  collection_name : String
  total_documents : ℕ
deriving DecidableEq, Repr

/-- `VectorStore.get_collection_stats`. -/
def get_collection_stats (c : Collection) : CollectionStats :=
  { collection_name := c.collection_name,
    total_documents := c.records.length }

/-- `SourceChunk` from `app/models.py`. -/
structure SourceChunk where
  content : Text
  source : String
  chunk_id : ℕ
  similarity_score : ℚ
deriving DecidableEq, Repr

/-- Modelled from the spec: `QueryResponse` is imported from `app.models`
but not defined there; its fields follow §4.4 and the construction sites in
`main.py`. -/
structure QueryResponse where
  answer : String
  source_chunks : List SourceChunk
deriving DecidableEq, Repr

/-- The fixed fallback answer returned by `query_documents` when the search
result set is empty. -/
def fallbackAnswer : String :=
  "No relevant documents found. Please upload documents first."

/-- The per-chunk metadata list built by `upload_document`: one
`datetime.now(timezone.utc).isoformat()` call per chunk, modelled by the
abstract clock `clock` applied at the chunk's index. -/
def uploadMetadata (clock : ℕ → String) (filename : String) (n : ℕ) :
    List MetadataR :=
  (List.range n).map (fun idx =>
    { source := filename, chunk_id := idx, uploaded_at := clock idx })

/-- The ingestion segment of `upload_document`: chunk the extracted text,
embed every chunk (`embed` is the external embedder), build the per-chunk
metadata and add the whole batch to the vector store.  The source performs
no zero-chunk check before calling `add_documents`.  Returns the (possibly
unchanged) store with the outcome. -/
def upload_document (size overlap : ℕ) (embed : Text → List ℚ)
    (clock : ℕ → String) (c : Collection) (filename : String) (raw : Text) :
    Collection × Except RagError (List ℕ) :=
  let chunks := chunk_text size overlap raw
  let embeddings := chunks.map embed
  let metadata := uploadMetadata clock filename chunks.length
  add_documents c chunks embeddings metadata

/-- The body of the source-chunk comprehension in `query_documents`:
`SourceChunk(content=chunk, source=..., chunk_id=..., similarity_score=1 - distance)`. -/
def toSourceChunk (r : SearchResult) : SourceChunk :=
  { content := r.document, source := r.metadata.source,
    chunk_id := r.metadata.chunk_id, similarity_score := 1 - r.distance }

/-- `query_documents`: embed the question, search, short-circuit to the
fixed fallback on an empty result set, otherwise invoke the generator `gen`
on the retrieved chunks in search order and package the per-chunk source
records with `similarity_score = 1 - distance`, preserving search order. -/
def query_documents (dist : List ℚ → List ℚ → ℚ) (embedQ : String → List ℚ)
    (gen : String → List Text → String) (c : Collection) (question : String)
    (top_k : ℕ) : Except RagError QueryResponse :=
  match search dist c (embedQ question) top_k with
  | .error e => .error e
  | .ok results =>
    if results.isEmpty then
      .ok { answer := fallbackAnswer, source_chunks := [] }
    else
      .ok { answer := gen question (results.map (fun r => r.document)),
            source_chunks := results.map toSourceChunk }

/-- The chunking configuration held by `DocumentProcessor`. -/
structure DocumentProcessor where
  chunk_size : ℕ
  chunk_overlap : ℕ
deriving DecidableEq, Repr

/-- Modelled from the spec: constructing the chunker
(`DocumentProcessor.__init__` builds the splitter, which is external code)
validates `chunk_size > 0` and `0 <= chunk_overlap < chunk_size`, failing
with `ConfigurationError` (§4.1). -/
def mkDocumentProcessor (chunk_size chunk_overlap : ℤ) :
    Except RagError DocumentProcessor :=
  if 0 < chunk_size ∧ 0 ≤ chunk_overlap ∧ chunk_overlap < chunk_size then
    .ok { chunk_size := chunk_size.toNat, chunk_overlap := chunk_overlap.toNat }
  else
    .error .configurationError

/-- Concrete metadata used to instantiate the theorems at concrete inputs. -/
def exMetadata : MetadataR :=
  { source := "a.txt", chunk_id := 0, uploaded_at := "t0" }

/-- A concrete stored record. -/
def exRecord : RecordR :=
  { id := 0, embedding := [1], document := ['h', 'i'], metadata := exMetadata }

/-- A concrete one-record store. -/
def exStore : Collection :=
  { collection_name := "documents", metric := "cosine", records := [exRecord],
    nextId := 1 }

theorem flatten_splitGo (sep : Text) :
    ∀ (fuel : ℕ) (acc t : Text),
      (splitGo sep fuel acc t).flatten = acc.reverse ++ t := by
  intro fuel
  induction fuel with
  | zero =>
    intro acc t
    cases t <;> simp [splitGo]
  | succ fuel ih =>
    intro acc t
    cases t with
    | nil => simp [splitGo]
    | cons c cs =>
      by_cases h : sep.isPrefixOf (c :: cs)
      · have hp : sep <+: (c :: cs) := List.isPrefixOf_iff_prefix.mp h
        obtain ⟨u, hu⟩ := hp
        simp only [splitGo, if_pos h, List.flatten_cons, ih, List.reverse_nil,
          List.nil_append]
        rw [← hu, List.drop_left, List.append_assoc]
      · simp only [splitGo, if_neg h, ih]
        simp

theorem flatten_filter_nonempty (l : List Text) :
    (l.filter (fun p => !p.isEmpty)).flatten = l.flatten := by
  induction l with
  | nil => rfl
  | cons p ps ih =>
    by_cases h : p.isEmpty
    · have hp : p = [] := by simpa using h
      simp [List.filter_cons, h, hp, ih]
    · simp [List.filter_cons, h, ih]

theorem flatten_splitOnSep (sep t : Text) : (splitOnSep sep t).flatten = t := by
  unfold splitOnSep
  by_cases h : sep = []
  · simp [h]
  · rw [if_neg h, flatten_filter_nonempty, flatten_splitGo]
    simp

theorem flatten_flatMap_pieces (f : Text → List Text)
    (hf : ∀ p, (f p).flatten = p) :
    ∀ l : List Text, (l.flatMap f).flatten = l.flatten := by
  intro l
  induction l with
  | nil => rfl
  | cons p ps ih => simp [List.flatMap_cons, List.flatten_append, hf, ih]

theorem flatten_recSplit (size : ℕ) :
    ∀ (seps : List Text) (t : Text), (recSplit size seps t).flatten = t := by
  intro seps
  induction seps with
  | nil =>
    intro t
    simp only [recSplit]
    induction t with
    | nil => rfl
    | cons c cs ih => simp [ih]
  | cons sep rest ih =>
    intro t
    simp only [recSplit]
    have hf : ∀ p : Text,
        ((fun p => if p.length ≤ size then [p] else recSplit size rest p) p).flatten
          = p := by
      intro p
      by_cases hp : p.length ≤ size
      · simp [hp]
      · simp [hp, ih]
    rw [flatten_flatMap_pieces _ hf, flatten_splitOnSep]

theorem length_takeLast (k : ℕ) (l : Text) :
    (takeLast k l).length = min k l.length := by
  simp only [takeLast, List.length_drop]
  omega

theorem reconstructGo_mergeGo (size overlap : ℕ) :
    ∀ (ps : List Text) (done cur : Text),
      reconstructGo overlap done
          (mergeGo size overlap ps done (takeLast overlap done) cur)
        = done ++ cur ++ ps.flatten := by
  intro ps
  induction ps with
  | nil =>
    intro done cur
    by_cases h : cur.isEmpty
    · have hc : cur = [] := by simpa using h
      simp [mergeGo, h, hc, reconstructGo]
    · simp only [mergeGo]
      rw [if_neg h]
      simp only [reconstructGo]
      rw [List.drop_left' (length_takeLast overlap done)]
      simp
  | cons p ps ih =>
    intro done cur
    by_cases h : ¬ cur.isEmpty ∧
        size < (takeLast overlap done).length + cur.length + p.length
    · simp only [mergeGo]
      rw [if_pos h]
      simp only [reconstructGo]
      rw [List.drop_left' (length_takeLast overlap done), ih (done ++ cur) p]
      simp [List.flatten_cons]
    · simp only [mergeGo]
      rw [if_neg h, ih done (cur ++ p)]
      simp [List.flatten_cons]

theorem reconstruct_chunkRaw (size overlap : ℕ) (t : Text) :
    reconstruct overlap (chunkRaw size overlap t) = t := by
  have h0 : takeLast overlap ([] : Text) = [] := by simp [takeLast]
  have h := reconstructGo_mergeGo size overlap (recSplit size sepList t) [] []
  rw [h0] at h
  simp only [reconstruct, chunkRaw, h, List.nil_append]
  exact flatten_recSplit size sepList t

theorem buildRecords_length :
    ∀ (i : ℕ) (texts : List Text) (embeddings : List (List ℚ))
      (metadata : List MetadataR),
      texts.length = embeddings.length → texts.length = metadata.length →
      (buildRecords i texts embeddings metadata).length = texts.length := by
  intro i texts
  induction texts generalizing i with
  | nil => intro e m _ _; cases e <;> cases m <;> simp [buildRecords]
  | cons t ts ih =>
    intro e m he hm
    cases e with
    | nil => simp at he
    | cons e es =>
      cases m with
      | nil => simp at hm
      | cons m ms =>
        simp only [buildRecords, List.length_cons]
        rw [ih (i + 1) es ms (by simpa using he) (by simpa using hm)]

theorem buildRecords_id_ge :
    ∀ (i : ℕ) (texts : List Text) (embeddings : List (List ℚ))
      (metadata : List MetadataR) (r : RecordR),
      r ∈ buildRecords i texts embeddings metadata → i ≤ r.id := by
  intro i texts
  induction texts generalizing i with
  | nil => intro e m r hr; simp [buildRecords] at hr
  | cons t ts ih =>
    intro e m r hr
    cases e with
    | nil => simp [buildRecords] at hr
    | cons e es =>
      cases m with
      | nil => simp [buildRecords] at hr
      | cons m ms =>
        simp only [buildRecords, List.mem_cons] at hr
        rcases hr with rfl | hr
        · exact le_rfl
        · exact le_trans (Nat.le_succ i) (ih (i + 1) es ms r hr)

/-- C6: constructing the Chunker with parameters violating `chunk_size > 0`
or `0 <= chunk_overlap < chunk_size` fails with `ConfigurationError`. -/
theorem c6_mkDocumentProcessor_invalid (chunk_size chunk_overlap : ℤ)
    (h : ¬ (0 < chunk_size ∧ 0 ≤ chunk_overlap ∧ chunk_overlap < chunk_size)) :
    mkDocumentProcessor chunk_size chunk_overlap = .error .configurationError := by
  simp [mkDocumentProcessor, h]

/-- Witness for C6: a zero chunk size is rejected. -/
theorem c6_witness :
    mkDocumentProcessor 0 0 = .error .configurationError :=
  c6_mkDocumentProcessor_invalid 0 0 (by decide)

/-- C9: `clear` destroys every record and recreates an empty collection
under the same name with the same metric configuration as a fresh store;
afterwards the stats count is zero and a search with any `top_k` (and any
metric) returns an empty result. -/
theorem c9_clear_documents_spec (c : Collection) :
    (clear_documents c).collection_name = c.collection_name ∧
    (clear_documents c).metric = (mkVectorStore c.collection_name).metric ∧
    (clear_documents c).records = [] ∧
    (get_collection_stats (clear_documents c)).total_documents = 0 ∧
    ∀ (dist : List ℚ → List ℚ → ℚ) (q : List ℚ) (top_k : ℕ),
      search dist (clear_documents c) q top_k = .ok [] := by
  refine ⟨rfl, rfl, rfl, rfl, ?_⟩
  intro dist q top_k
  simp [search, clear_documents, List.insertionSort]

/-- C5: an `add` whose three sequences are not of equal positive length
fails with `ValidationError`, and the failing call leaves the collection
unchanged (all-or-nothing). -/
theorem c5_add_documents_validation (c : Collection) (texts : List Text)
    (embeddings : List (List ℚ)) (metadata : List MetadataR)
    (h : ¬ (texts.length = embeddings.length ∧
        texts.length = metadata.length ∧ 0 < texts.length)) :
    (add_documents c texts embeddings metadata).2 = .error .validationError ∧
    (add_documents c texts embeddings metadata).1 = c := by
  constructor <;> simp [add_documents, h]

/-- Witness for C5: the empty batch is rejected and the store is untouched. -/
theorem c5_witness :
    (add_documents (mkVectorStore "documents") [] [] []).2 =
        .error .validationError ∧
    (add_documents (mkVectorStore "documents") [] [] []).1 =
        mkVectorStore "documents" :=
  c5_add_documents_validation (mkVectorStore "documents") [] [] [] (by decide)

/-- C2: when the vector search returns an empty result set, the retrieval
operation returns the fixed fallback answer — which carries the
no-relevant-documents marker — with an empty source list, and the response
does not depend on the generator, which is never invoked on that path. -/
theorem c2_query_documents_fallback (dist : List ℚ → List ℚ → ℚ)
    (embedQ : String → List ℚ) (gen : String → List Text → String)
    (c : Collection) (question : String) (top_k : ℕ)
    (h : search dist c (embedQ question) top_k = .ok []) :
    query_documents dist embedQ gen c question top_k =
        .ok { answer := fallbackAnswer, source_chunks := [] } ∧
    (∀ gen2 : String → List Text → String,
        query_documents dist embedQ gen2 c question top_k =
          query_documents dist embedQ gen c question top_k) ∧
    List.IsInfix "No relevant documents".toList fallbackAnswer.toList := by
  refine ⟨?_, ?_, ?_⟩
  · simp [query_documents, h]
  · intro gen2
    simp [query_documents, h]
  · exact ⟨[], " found. Please upload documents first.".toList, by decide⟩

/-- Witness for C2 at a concrete freshly created store. -/
theorem c2_witness :
    query_documents (fun _ _ => 0) (fun _ => [1]) (fun _ _ => "llm answer")
        (mkVectorStore "documents") "q" 3 =
      .ok { answer := fallbackAnswer, source_chunks := [] } :=
  (c2_query_documents_fallback (fun _ _ => 0) (fun _ => [1])
    (fun _ _ => "llm answer") (mkVectorStore "documents") "q" 3 (by rfl)).1

/-- C3: with `top_k >= 1` and dimensionally consistent stored records,
search succeeds; the results are ordered by ascending distance, exactly
`min top_k n` of the `n` stored records are returned (all of them when fewer
than `top_k` are stored, none on an empty collection, and never an error),
and every result is one of the stored records evaluated at the metric. -/
theorem c3_search_spec (dist : List ℚ → List ℚ → ℚ) (c : Collection)
    (q : List ℚ) (top_k : ℕ) (htop : 1 ≤ top_k)
    (hdim : ∀ r ∈ c.records, r.embedding.length = q.length) :
    ∃ res, search dist c q top_k = .ok res ∧
      res.length = min top_k c.records.length ∧
      List.Pairwise (fun a b => a.distance ≤ b.distance) res ∧
      (∀ x ∈ res, ∃ r ∈ c.records,
          x = SearchResult.mk r.document r.metadata (dist q r.embedding)) ∧
      (c.records = [] → res = []) := by
  have hall : c.records.all
      (fun r => r.embedding.length == q.length) = true := by
    rw [List.all_eq_true]
    intro r hr
    simpa using hdim r hr
  refine ⟨((c.records.map (fun r =>
      SearchResult.mk r.document r.metadata (dist q r.embedding))).insertionSort
        (fun a b => a.distance ≤ b.distance)).take top_k, ?_, ?_, ?_, ?_, ?_⟩
  · simp only [search]
    rw [if_pos hall]
  · simp
  · haveI : IsTotal SearchResult (fun a b => a.distance ≤ b.distance) :=
      ⟨fun a b => le_total a.distance b.distance⟩
    haveI : IsTrans SearchResult (fun a b => a.distance ≤ b.distance) :=
      ⟨fun a b c₂ hab hbc => le_trans hab hbc⟩
    exact List.Pairwise.sublist (List.take_sublist _ _)
      (List.sorted_insertionSort _ _)
  · intro x hx
    have hx2 := List.mem_of_mem_take hx
    rw [List.mem_insertionSort] at hx2
    obtain ⟨r, hr, hxr⟩ := List.mem_map.mp hx2
    exact ⟨r, hr, hxr.symm⟩
  · intro hempty
    simp [hempty, List.insertionSort]

/-- Witness for C3 at the concrete one-record store. -/
theorem c3_witness :
    ∃ res, search (fun _ _ => 0) exStore [1] 3 = .ok res ∧
      res.length = min 3 exStore.records.length ∧
      List.Pairwise (fun a b => a.distance ≤ b.distance) res ∧
      (∀ x ∈ res, ∃ r ∈ exStore.records,
          x = SearchResult.mk r.document r.metadata ((fun _ _ => (0 : ℚ)) [1] r.embedding)) ∧
      (exStore.records = [] → res = []) :=
  c3_search_spec (fun _ _ => 0) exStore [1] 3 (by decide)
    (by intro r hr; simp [exStore, exRecord] at hr; simp [hr])

/-- C4: on a non-empty search result, the response packages the generator
answer with one source record per result in exactly the order the search
returned them, each carrying `similarity_score = 1 - distance` of its
result. -/
theorem c4_query_documents_sources (dist : List ℚ → List ℚ → ℚ)
    (embedQ : String → List ℚ) (gen : String → List Text → String)
    (c : Collection) (question : String) (top_k : ℕ)
    (results : List SearchResult)
    (h : search dist c (embedQ question) top_k = .ok results)
    (hne : results ≠ []) :
    query_documents dist embedQ gen c question top_k =
      .ok { answer := gen question (results.map (fun r => r.document)),
            source_chunks := results.map toSourceChunk } ∧
    ∀ i (hi : i < results.length),
      (results.map toSourceChunk).get ⟨i, by simpa using hi⟩ =
          toSourceChunk (results.get ⟨i, hi⟩) ∧
      (toSourceChunk (results.get ⟨i, hi⟩)).similarity_score =
          1 - (results.get ⟨i, hi⟩).distance := by
  constructor
  · have hne2 : results.isEmpty = false := by
      cases results with
      | nil => exact absurd rfl hne
      | cons a l => rfl
    simp [query_documents, h, hne2]
  · intro i hi
    constructor
    · simp
    · rfl

/-- Witness for C4 at the concrete one-record store. -/
theorem c4_witness :
    query_documents (fun _ _ => 0) (fun _ => [1]) (fun _ _ => "ans") exStore
        "q" 3 =
      .ok { answer := "ans",
            source_chunks :=
              List.map toSourceChunk [SearchResult.mk ['h', 'i'] exMetadata 0] } :=
  (c4_query_documents_sources (fun _ _ => 0) (fun _ => [1]) (fun _ _ => "ans")
    exStore "q" 3 [SearchResult.mk ['h', 'i'] exMetadata 0] rfl (by decide)).1

/-- C7: a successful `add` appends exactly one record per input entry under
fresh ids (collision-free against every stored id, given the counter
invariant), returns the ids in input order, leaves the existing records
untouched, and therefore a second ingestion under the same source name
appends a second independent record set instead of deduplicating or
replacing the first. -/
theorem c7_add_documents_fresh_append (c : Collection) (texts : List Text)
    (embeddings : List (List ℚ)) (metadata : List MetadataR)
    (hlen1 : texts.length = embeddings.length)
    (hlen2 : texts.length = metadata.length)
    (hpos : 0 < texts.length)
    (hfresh : ∀ r ∈ c.records, r.id < c.nextId) :
    (add_documents c texts embeddings metadata).2 =
        .ok (List.range' c.nextId texts.length) ∧
    (add_documents c texts embeddings metadata).1.records =
        c.records ++ buildRecords c.nextId texts embeddings metadata ∧
    (buildRecords c.nextId texts embeddings metadata).length = texts.length ∧
    (List.range' c.nextId texts.length).Nodup ∧
    (∀ i ∈ List.range' c.nextId texts.length, ∀ r ∈ c.records, r.id ≠ i) ∧
    (∀ r ∈ buildRecords c.nextId texts embeddings metadata,
        ∀ s ∈ c.records, s.id ≠ r.id) ∧
    (∀ src : String,
        (add_documents c texts embeddings metadata).1.records.filter
            (fun r => r.metadata.source == src) =
          c.records.filter (fun r => r.metadata.source == src) ++
            (buildRecords c.nextId texts embeddings metadata).filter
              (fun r => r.metadata.source == src)) := by
  have hcond : texts.length = embeddings.length ∧
      texts.length = metadata.length ∧ 0 < texts.length := ⟨hlen1, hlen2, hpos⟩
  have e1 : add_documents c texts embeddings metadata =
      ({ c with
          records := c.records ++ buildRecords c.nextId texts embeddings metadata,
          nextId := c.nextId + texts.length },
        .ok (List.range' c.nextId texts.length)) := by
    simp only [add_documents]
    rw [if_pos hcond]
  refine ⟨by rw [e1], by rw [e1], ?_, ?_, ?_, ?_, ?_⟩
  · exact buildRecords_length c.nextId texts embeddings metadata hlen1 hlen2
  · exact List.nodup_range' _ _
  · intro i hi r hr
    have h1 : c.nextId ≤ i := by
      rw [List.mem_range'] at hi
      obtain ⟨j, hj, rfl⟩ := hi
      omega
    exact Nat.ne_of_lt (lt_of_lt_of_le (hfresh r hr) h1)
  · intro r hr s hs
    exact Nat.ne_of_lt (lt_of_lt_of_le (hfresh s hs)
      (buildRecords_id_ge c.nextId texts embeddings metadata r hr))
  · intro src
    rw [e1]
    simp [List.filter_append]

/-- Witness for C7: adding one chunk to the concrete one-record store. -/
theorem c7_witness :
    (add_documents exStore [['o', 'k']] [[2]]
        [{ source := "a.txt", chunk_id := 0, uploaded_at := "t1" }]).2 =
      .ok (List.range' exStore.nextId 1) :=
  (c7_add_documents_fresh_append exStore [['o', 'k']] [[2]]
    [{ source := "a.txt", chunk_id := 0, uploaded_at := "t1" }]
    rfl rfl (by decide)
    (by intro r hr; simp [exStore, exRecord] at hr; simp [hr, exStore])).1

/-- C10: within one ingestion the i-th chunk's `uploaded_at` is the i-th
value of the timestamp clock — one timestamp call per chunk at
metadata-construction time — so chunks of the same call may carry different
values whenever the clock advances between calls. -/
theorem c10_uploadMetadata_per_chunk (clock : ℕ → String) (filename : String)
    (n : ℕ) :
    (∀ i (hi : i < n),
      (uploadMetadata clock filename n).get
          ⟨i, by simpa [uploadMetadata] using hi⟩ =
        { source := filename, chunk_id := i, uploaded_at := clock i }) ∧
    (2 ≤ n → clock 0 ≠ clock 1 →
      ∃ m0 ∈ uploadMetadata clock filename n,
        ∃ m1 ∈ uploadMetadata clock filename n,
          m0.uploaded_at ≠ m1.uploaded_at) := by
  have hget : ∀ i (hi : i < n),
      (uploadMetadata clock filename n).get
          ⟨i, by simpa [uploadMetadata] using hi⟩ =
        { source := filename, chunk_id := i, uploaded_at := clock i } := by
    intro i hi
    simp [uploadMetadata]
  refine ⟨hget, ?_⟩
  intro hn hclock
  refine ⟨{ source := filename, chunk_id := 0, uploaded_at := clock 0 }, ?_,
    { source := filename, chunk_id := 1, uploaded_at := clock 1 }, ?_, ?_⟩
  · rw [← hget 0 (by omega)]
    exact List.get_mem _ _ _
  · rw [← hget 1 (by omega)]
    exact List.get_mem _ _ _
  · simpa using hclock

/-- Witness for C10: two chunks, a clock that advances between the calls. -/
theorem c10_witness :
    ∃ m0 ∈ uploadMetadata (fun i => String.mk (List.replicate i 'x')) "a.txt" 2,
      ∃ m1 ∈ uploadMetadata (fun i => String.mk (List.replicate i 'x')) "a.txt" 2,
        m0.uploaded_at ≠ m1.uploaded_at :=
  (c10_uploadMetadata_per_chunk (fun i => String.mk (List.replicate i 'x'))
    "a.txt" 2).2 (by decide) (by decide)

/-- C1 (amended): ingesting a document whose extracted text yields zero
chunks (empty or whitespace-only input) fails — with the store-level
`ValidationError` raised for an empty batch, the source having no dedicated
zero-chunk check — inserts no record and leaves the stats count
unchanged. -/
theorem c1_upload_empty_fails (size overlap : ℕ) (embed : Text → List ℚ)
    (clock : ℕ → String) (c : Collection) (filename : String) (raw : Text)
    (h : chunk_text size overlap raw = []) :
    (upload_document size overlap embed clock c filename raw).2 =
        .error .validationError ∧
    (upload_document size overlap embed clock c filename raw).1 = c ∧
    get_collection_stats
        ((upload_document size overlap embed clock c filename raw).1) =
      get_collection_stats c := by
  have e1 : upload_document size overlap embed clock c filename raw =
      add_documents c [] [] [] := by
    simp [upload_document, h, uploadMetadata]
  rw [e1]
  refine ⟨?_, ?_, ?_⟩ <;> simp [add_documents]

/-- Witness for C1 at a concrete whitespace-only document. -/
theorem c1_witness :
    (upload_document 1000 200 (fun _ => [1]) (fun _ => "t")
        (mkVectorStore "documents") "a.txt" [' ']).2 =
      .error .validationError :=
  (c1_upload_empty_fails 1000 200 (fun _ => [1]) (fun _ => "t")
    (mkVectorStore "documents") "a.txt" [' '] (by decide)).1

/-- C1 counterexample: with empty extracted text the ingestion fails, but
with `ValidationError` from the store's empty-batch validation, not with
`EmptyDocumentError` as the claim states. -/
theorem c1_counterexample :
    chunk_text 1000 200 [] = [] ∧
    chunk_text 1000 200 [' '] = [] ∧
    (upload_document 1000 200 (fun _ => [1]) (fun _ => "t")
        (mkVectorStore "documents") "a.txt" []).2 = .error .validationError ∧
    (upload_document 1000 200 (fun _ => [1]) (fun _ => "t")
        (mkVectorStore "documents") "a.txt" []).2 ≠
      .error .emptyDocumentError := by
  refine ⟨by decide, by decide, rfl, ?_⟩
  intro heq
  exact RagError.noConfusion (Except.error.inj heq)

/-- C8 (amended): the chunk sequence as accumulated before the per-chunk
whitespace stripping reconstructs the extracted text exactly when the
duplicated overlaps are stripped between adjacent chunks; the emitted chunks
are those accumulated chunks with boundary whitespace stripped and
whitespace-only chunks dropped. -/
theorem c8_round_trip (size overlap : ℕ) (t : Text) :
    reconstruct overlap (chunkRaw size overlap t) = t ∧
    chunk_text size overlap t =
      ((chunkRaw size overlap t).map stripChunk).filter (fun c => !c.isEmpty) :=
  ⟨reconstruct_chunkRaw size overlap t, rfl⟩

/-- C8 counterexample: a whitespace-only document with valid parameters
chunks to the empty sequence, so no reconstruction from the emitted chunks
can return the original text. -/
theorem c8_counterexample :
    chunk_text 100 20 [' '] = [] ∧
    reconstruct 20 (chunk_text 100 20 [' ']) ≠ [' '] := by
  refine ⟨by decide, by decide⟩

end FastapiRag
